import Mathlib

/-!
Verification of the pyfirehose block-extraction pipeline against its
specification.  The Python sources are shallowly embedded: pure functions
become Lean functions, the stateful parts of `__main__.main` become an
explicit outcome-plus-effect-trace function, and fallible operations return
`Option` / `Except`.  JSON serialization models Python's `json.dump` /
`json.loads` on the fragment the program actually produces (flat objects
whose values are strings and integers, plus flat arrays and primitives for
embedded action payloads).
-/

namespace Pyfirehose

/-- A JSON value as produced by the block processors: a string or an integer. -/
inductive JValue where
  | str (s : String)
  | int (n : Int)
deriving DecidableEq, Repr

/-- A JSON object (Python dict), as an insertion-ordered list of fields. -/
abbrev JRecord := List (String × JValue)

/-- Decimal digit character for a value below 10. -/
def digitChar (n : Nat) : Char :=
  if n = 0 then '0' else if n = 1 then '1' else if n = 2 then '2'
  else if n = 3 then '3' else if n = 4 then '4' else if n = 5 then '5'
  else if n = 6 then '6' else if n = 7 then '7' else if n = 8 then '8' else '9'

/-- Lower-case hexadecimal digit character for a value below 16. -/
def hexDigitChar (n : Nat) : Char :=
  if n < 10 then digitChar n
  else if n = 10 then 'a' else if n = 11 then 'b' else if n = 12 then 'c'
  else if n = 13 then 'd' else if n = 14 then 'e' else 'f'

/-- JSON string escaping of one character, as performed by `json.dump`:
quote, backslash and the common control characters get two-character escapes,
remaining control characters become `\u00XX`, everything else is verbatim. -/
def escapeChar (c : Char) : List Char :=
  if c = '"' then ['\\', '"']
  else if c = '\\' then ['\\', '\\']
  else if c = '\n' then ['\\', 'n']
  else if c = '\t' then ['\\', 't']
  else if c = '\r' then ['\\', 'r']
  else if c.toNat < 32 then
    ['\\', 'u', '0', '0', hexDigitChar (c.toNat / 16), hexDigitChar (c.toNat % 16)]
  else [c]

/-- JSON string escaping of a character sequence. -/
def escapeChars (cs : List Char) : List Char := cs.flatMap escapeChar

/-- Serialized JSON string literal: quote, escaped content, quote. -/
def dumpString (s : String) : List Char := '"' :: (escapeChars s.data ++ ['"'])

/-- Decimal digits of a natural number below the fuel bound, most
significant first. -/
def natToCharsAux : Nat → Nat → List Char
  | 0, _ => []
  | fuel + 1, n =>
    if n < 10 then [digitChar n]
    else natToCharsAux fuel (n / 10) ++ [digitChar (n % 10)]

/-- Decimal digits of a natural number, most significant first. -/
def natToChars (n : Nat) : List Char := natToCharsAux (n + 1) n

/-- Decimal rendering of an integer, with a leading minus sign if negative. -/
def intToChars (i : Int) : List Char :=
  if i < 0 then '-' :: natToChars (-i).toNat else natToChars i.toNat

/-- Serialized JSON value. -/
def dumpValue : JValue → List Char
  | .str s => dumpString s
  | .int n => intToChars n

/-- Serialized `"key": value` pair (the `": "` separator is `json.dump`'s default). -/
def dumpPair (kv : String × JValue) : List Char :=
  dumpString kv.1 ++ (':' :: ' ' :: dumpValue kv.2)

/-- Serialized object body: pairs joined by `", "` (`json.dump`'s default). -/
def dumpPairs : JRecord → List Char
  | [] => []
  | [kv] => dumpPair kv
  | kv :: rest => dumpPair kv ++ (',' :: ' ' :: dumpPairs rest)

/-- Serialized JSON object: braces around the joined pairs. -/
def dumpRecordChars (r : JRecord) : List Char :=
  '\x7b' :: (dumpPairs r ++ ['\x7d'])

/-- Model of `json.dump(entry, out)` for one record: the serialized object text. -/
def json_dump (r : JRecord) : String := String.mk (dumpRecordChars r)

/-- Character stream written by the sink loop of `main`: for each entry,
`json.dump(entry, out)` followed by `out.write(newline)`. -/
def sinkOutputChars (rs : List JRecord) : List Char :=
  (rs.map (fun r => dumpRecordChars r ++ ['\n'])).flatten

/-- Full text written to the output file by the sink loop of `main`
(UTF-8 encoded on disk; modelled at the Unicode string level). -/
def sink_output (rs : List JRecord) : String := String.mk (sinkOutputChars rs)

/-- Value of a hexadecimal digit character, `none` for a non-hex character. -/
def hexVal (c : Char) : Option Nat :=
  if 48 ≤ c.toNat ∧ c.toNat ≤ 57 then some (c.toNat - 48)
  else if 97 ≤ c.toNat ∧ c.toNat ≤ 102 then some (c.toNat - 87)
  else if 65 ≤ c.toNat ∧ c.toNat ≤ 70 then some (c.toNat - 55)
  else none

/-- Inverse of the two-character escapes accepted by `json.loads`. -/
def unescapeCode (c : Char) : Option Char :=
  if c = '"' then some '"'
  else if c = '\\' then some '\\'
  else if c = '/' then some '/'
  else if c = 'n' then some '\n'
  else if c = 't' then some '\t'
  else if c = 'r' then some '\r'
  else if c = 'b' then some (Char.ofNat 8)
  else if c = 'f' then some (Char.ofNat 12)
  else none

/-- Parse a JSON string body after the opening quote, returning the decoded
content and the input remaining after the closing quote.  Unescaped control
characters are rejected, as in `json.loads` strict mode. -/
def parseJString : List Char → Option (List Char × List Char)
  | [] => none
  | c :: cs =>
    if c = '"' then some ([], cs)
    else if c = '\\' then
      match cs with
      | [] => none
      | e :: cs2 =>
        if e = 'u' then
          match cs2 with
          | h1 :: h2 :: h3 :: h4 :: cs3 =>
            match hexVal h1, hexVal h2, hexVal h3, hexVal h4 with
            | some a, some b, some x, some d =>
              match parseJString cs3 with
              | some (s, r) => some (Char.ofNat (((a * 16 + b) * 16 + x) * 16 + d) :: s, r)
              | none => none
            | _, _, _, _ => none
          | _ => none
        else
          match unescapeCode e with
          | none => none
          | some d =>
            match parseJString cs2 with
            | some (s, r) => some (d :: s, r)
            | none => none
    else if c.toNat < 32 then none
    else
      match parseJString cs with
      | some (s, r) => some (c :: s, r)
      | none => none

/-- Whether a character is a decimal digit. -/
def isDigitChar (c : Char) : Bool := 48 ≤ c.toNat ∧ c.toNat ≤ 57

/-- Split off the longest digit prefix of the input. -/
def takeDigits : List Char → List Char × List Char
  | [] => ([], [])
  | c :: cs =>
    if isDigitChar c then
      let (ds, r) := takeDigits cs
      (c :: ds, r)
    else ([], c :: cs)

/-- Numeric value of a digit sequence, most significant first. -/
def digitsVal (ds : List Char) : Nat :=
  ds.foldl (fun a c => a * 10 + (c.toNat - 48)) 0

/-- Whether the input starts with a decimal digit. -/
def headIsDigit : List Char → Bool
  | [] => false
  | c :: _ => isDigitChar c

/-- Parse one JSON value (string literal or integer), returning it and the
rest of the input. -/
def parseValue : List Char → Option (JValue × List Char)
  | [] => none
  | c :: cs =>
    if c = '"' then
      match parseJString cs with
      | some (s, r) => some (.str (String.mk s), r)
      | none => none
    else if c = '-' then
      match takeDigits cs with
      | (ds, r) => if ds = [] then none else some (.int (-(digitsVal ds : Int)), r)
    else
      match takeDigits (c :: cs) with
      | (ds, r) => if ds = [] then none else some (.int (digitsVal ds), r)

/-- Parse one `"key": value` pair of a serialized object. -/
def parsePair (cs : List Char) : Option ((String × JValue) × List Char) :=
  match cs with
  | [] => none
  | c :: cs1 =>
    if c = '"' then
      match parseJString cs1 with
      | some (k, r1) =>
        match r1 with
        | ':' :: ' ' :: r2 =>
          match parseValue r2 with
          | some (v, r3) => some ((String.mk k, v), r3)
          | none => none
        | _ => none
      | none => none
    else none

/-- Parse the pairs of a non-empty object body up to and including the
closing brace; `fuel` bounds the number of pairs. -/
def parsePairsAux : Nat → List Char → Option (JRecord × List Char)
  | 0, _ => none
  | fuel + 1, cs =>
    match parsePair cs with
    | none => none
    | some (kv, r1) =>
      match r1 with
      | '\x7d' :: r2 => some ([kv], r2)
      | ',' :: ' ' :: r2 =>
        match parsePairsAux fuel r2 with
        | some (rest, r3) => some (kv :: rest, r3)
        | none => none
      | _ => none

/-- Parse one serialized JSON object, returning the record and the rest of
the input. -/
def parseRecordChars (cs : List Char) : Option (JRecord × List Char) :=
  match cs with
  | [] => none
  | c :: cs1 =>
    if c = '\x7b' then
      match cs1 with
      | [] => none
      | d :: cs2 =>
        if d = '\x7d' then some ([], cs2)
        else parsePairsAux (d :: cs2).length (d :: cs2)
    else none

/-- Model of `json.loads` applied to one line of the output file: the line
must consist of exactly one JSON object. -/
def parseLine (s : String) : Option JRecord :=
  match parseRecordChars s.data with
  | some (r, []) => some r
  | _ => none

/-- Parse a whole newline-delimited JSON stream: records each followed by a
newline; `fuel` bounds the number of records. -/
def parseNDJSONAux : Nat → List Char → Option (List JRecord)
  | _, [] => some []
  | 0, _ => none
  | fuel + 1, cs =>
    match parseRecordChars cs with
    | none => none
    | some (r, rest) =>
      match rest with
      | '\n' :: rest2 =>
        match parseNDJSONAux fuel rest2 with
        | some more => some (r :: more)
        | none => none
      | _ => none

/-- Model of reading the output back as newline-delimited JSON. -/
def parseNDJSON (s : String) : Option (List JRecord) :=
  parseNDJSONAux s.data.length s.data

/-- Split a character stream at newline characters (the `N` segments of a
file of `N` newline-terminated lines, plus one final empty segment). -/
def splitLines : List Char → List (List Char)
  | [] => [[]]
  | c :: cs =>
    if c = '\n' then [] :: splitLines cs
    else
      match splitLines cs with
      | [] => [[c]]
      | l :: ls => (c :: l) :: ls

/-! Model of the processor signature check in `pyfirehose/__main__.py` (main). -/

/-- Python annotation values relevant to the check: `codec_pb2.Block`, `dict`,
or any other type. -/
inductive PyType where
  | block
  | dict
  | other
deriving DecidableEq, Repr

/-- Shape of `inspect.signature(block_processor)` as used by `main`:
the return annotation, the per-parameter annotations (in order), and whether
`inspect.isgeneratorfunction` holds.  `none` models `inspect`'s empty
annotation. -/
structure ProcessorSignature where
  return_annotation : Option PyType
  parameters : List (Option PyType)
  is_generator : Bool
deriving DecidableEq, Repr

/-- Outcome of the signature check in `main`. -/
inductive SignatureCheck where
  | warned
  | incompatible
  | passed
deriving DecidableEq, Repr

/-- The list `parameters_annotations` built by `main` from the signature's
parameters. -/
def parameters_annotations (sig : ProcessorSignature) : List (Option PyType) :=
  sig.parameters

/-- The signature check of `main`: missing annotations produce a warning;
otherwise a `TypeError` is raised unless `codec_pb2.Block` appears among the
parameter annotations, the return annotation is `dict`, and the function is a
generator function. -/
def checkSignature (sig : ProcessorSignature) : SignatureCheck :=
  if sig.return_annotation = none
     ∨ (parameters_annotations sig = [] ∧ sig.parameters ≠ [])
     ∨ (∃ t ∈ parameters_annotations sig, t = none)
  then .warned
  else if (some PyType.block) ∉ parameters_annotations sig
       ∨ sig.return_annotation ≠ some PyType.dict
       ∨ sig.is_generator = false
  then .incompatible
  else .passed

/-! Model of the compression option handling in `pyfirehose/config.py`
(`load_config`). -/

/-- The gRPC compression settings used by `load_config`. -/
inductive Compression where
  | noCompression
  | gzip
  | deflate
deriving DecidableEq, Repr

/-- Error raised by `load_config` for an unrecognized compression option. -/
inductive ConfigError where
  | argumentTypeError
deriving DecidableEq, Repr

/-- Model of Python `str.lower` (ASCII letters; config values are ASCII). -/
def py_lower (s : String) : String :=
  String.mk (s.data.map (fun c =>
    if 65 ≤ c.toNat ∧ c.toNat ≤ 90 then Char.ofNat (c.toNat + 32) else c))

/-- Compression handling of `load_config`: an absent `compression` key
(`KeyError`) selects no compression; otherwise the lower-cased value must be
`gzip` or `deflate`, anything else raises `ArgumentTypeError`. -/
def parse_compression (compression : Option String) : Except ConfigError Compression :=
  match compression with
  | none => .ok .noCompression
  | some s =>
    let compression_option := py_lower s
    if compression_option = "gzip" ∨ compression_option = "deflate" then
      .ok (if compression_option = "gzip" then .gzip else .deflate)
    else .error .argumentTypeError

/-! Model of the per-chain block processors in `block_processors/default.py`.
The protobuf block structures (`proto/codec.proto`) are not under `src/`;
they are embedded with exactly the fields the processor reads. -/

/-- An action inside an action trace (fields read by the processor). -/
structure Action where
  account : String
  name : String
  json_data : String
deriving DecidableEq, Repr

/-- An action trace inside a transaction trace (fields read by the
processor); `block_time_seconds` models `action_trace.block_time.seconds`. -/
structure ActionTrace where
  receiver : String
  transaction_id : String
  filtering_matched : Bool
  block_time_seconds : Int
  action : Action
deriving DecidableEq, Repr

/-- A filtered transaction trace (fields read by the processor). -/
structure TransactionTrace where
  block_num : Nat
  action_traces : List ActionTrace
deriving DecidableEq, Repr

/-- A streamed block (fields read by the processor). -/
structure Block where
  filtered_transaction_traces : List TransactionTrace
deriving DecidableEq, Repr

/-- A parsed top-level JSON document for embedded action payloads: an
object, an array, or a primitive value. -/
inductive JTop where
  | obj (fields : JRecord)
  | arr (items : List JValue)
  | prim (v : JValue)
deriving DecidableEq, Repr

/-- Parse the items of a non-empty array body up to and including the
closing bracket; `fuel` bounds the number of items. -/
def parseItemsAux : Nat → List Char → Option (List JValue × List Char)
  | 0, _ => none
  | fuel + 1, cs =>
    match parseValue cs with
    | none => none
    | some (v, r1) =>
      match r1 with
      | ']' :: r2 => some ([v], r2)
      | ',' :: ' ' :: r2 =>
        match parseItemsAux fuel r2 with
        | some (items, r3) => some (v :: items, r3)
        | none => none
      | _ => none

/-- Model of `json.loads` on an embedded action payload, restricted to the
canonical fragment (flat objects with string or integer values, flat arrays,
and primitives); anything outside the fragment is a parse failure. -/
def jsonLoads (s : String) : Option JTop :=
  match s.data with
  | [] => none
  | c :: cs =>
    if c = '\x7b' then
      match parseRecordChars s.data with
      | some (r, []) => some (.obj r)
      | _ => none
    else if c = '[' then
      match cs with
      | [] => none
      | d :: cs2 =>
        if d = ']' then (if cs2 = [] then some (.arr []) else none)
        else
          match parseItemsAux cs.length cs with
          | some (items, []) => some (.arr items)
          | _ => none
    else
      match parseValue s.data with
      | some (v, []) => some (.prim v)
      | _ => none

/-- Uncaught exceptions a record build can raise inside the processor (only
`json.loads` itself is wrapped in try/except). -/
inductive ProcError where
  | keyError (key : String)
  | typeError
  | attributeError
  | indexError
deriving DecidableEq, Repr

/-- Model of Python `str.split` with the explicit single-space separator:
split at every space, keeping empty segments. -/
def pySplitSpace : List Char → List (List Char)
  | [] => [[]]
  | c :: cs =>
    if c = ' ' then [] :: pySplitSpace cs
    else
      match pySplitSpace cs with
      | [] => [[c]]
      | l :: ls => (c :: l) :: ls

/-- Lookup in a parsed JSON object, last occurrence winning as in a Python
dict built by `json.loads`. -/
def dictGet (fields : JRecord) (k : String) : Option JValue :=
  (fields.reverse.find? (fun kv => kv.1 == k)).map (·.2)

/-- Model of `parsed[key]`: a missing key raises `KeyError`; subscripting a
non-object with a string key raises `TypeError`. -/
def jsonSubscript (jt : JTop) (k : String) : Except ProcError JValue :=
  match jt with
  | .obj fields =>
    match dictGet fields k with
    | some v => .ok v
    | none => .error (.keyError k)
  | _ => .error .typeError

/-- Left-pad the decimal rendering of a number with zeros to a width. -/
def zfill (w : Nat) (n : Nat) : String :=
  let s := Nat.repr n
  String.mk (List.replicate (w - s.length) '0') ++ s

/-- Civil date from a count of days since the Unix epoch (the standard
era-based conversion, using truncating integer division). -/
def civilFromDays (z0 : Int) : Int × Int × Int :=
  let z := z0 + 719468
  let era : Int := (if 0 ≤ z then z else z - 146096) / 146097
  let doe := z - era * 146097
  let yoe := (doe - doe / 1460 + doe / 36524 - doe / 146096) / 365
  let y := yoe + era * 400
  let doy := doe - (365 * yoe + yoe / 4 - yoe / 100)
  let mp := (5 * doy + 2) / 153
  let d := doy - (153 * mp + 2) / 5 + 1
  let m := mp + (if mp < 10 then 3 else -9)
  (if m ≤ 2 then y + 1 else y, m, d)

/-- Model of `datetime.utcfromtimestamp(seconds).strftime(date format)` as
used for the `date` field. -/
def strftime_utc (secs : Int) : String :=
  let days := secs.fdiv 86400
  let rem := (secs - days * 86400).toNat
  let c := civilFromDays days
  zfill 4 c.1.toNat ++ "-" ++ zfill 2 c.2.1.toNat ++ "-" ++ zfill 2 c.2.2.toNat
    ++ " " ++ zfill 2 (rem / 3600) ++ ":" ++ zfill 2 (rem % 3600 / 60)
    ++ ":" ++ zfill 2 (rem % 60)

/-- Processing of one action trace by `eos_block_processor`:
`none` means the action yields nothing (not `filtering_matched`, or
`json.loads` failed and the action was skipped with a warning);
`some (.error e)` means an uncaught exception aborts the generator;
`some (.ok r)` is a yielded record.  Field order and contents follow the
dict literal in the source. -/
def processAction (block_num : Nat) (tr : ActionTrace) : Option (Except ProcError JRecord) :=
  if tr.filtering_matched = false then none
  else
    match jsonLoads tr.action.json_data with
    | none => none
    | some jt =>
      match jsonSubscript jt "quantity" with
      | .error e => some (.error e)
      | .ok qv =>
        match qv with
        | .int _ => some (.error .attributeError)
        | .str q =>
          let parts := (pySplitSpace q.data).map String.mk
          let amount := parts.headI
          match parts[1]? with
          | none => some (.error .indexError)
          | some token =>
            match jsonSubscript jt "from" with
            | .error e => some (.error e)
            | .ok fromV =>
              match jsonSubscript jt "to" with
              | .error e => some (.error e)
              | .ok toV =>
                match jsonSubscript jt "memo" with
                | .error e => some (.error e)
                | .ok memoV =>
                  some (.ok [
                    ("account", .str tr.receiver),
                    ("date", .str (strftime_utc tr.block_time_seconds)),
                    ("timestamp", .int tr.block_time_seconds),
                    ("amount", .str amount),
                    ("token", .str token),
                    ("amountCAD", .int 0),
                    ("token/CAD", .int 0),
                    ("from", fromV),
                    ("to", toV),
                    ("block_num", .int block_num),
                    ("transaction_id", .str tr.transaction_id),
                    ("memo", memoV),
                    ("contract", .str tr.action.account),
                    ("action", .str tr.action.name)
                  ])

/-- Run the processor over the action traces of one transaction trace,
yielding records until the first uncaught exception (if any). -/
def runActions (block_num : Nat) : List ActionTrace → List JRecord × Option ProcError
  | [] => ([], none)
  | a :: rest =>
    match processAction block_num a with
    | none => runActions block_num rest
    | some (.error e) => ([], some e)
    | some (.ok r) =>
      let (rs, err) := runActions block_num rest
      (r :: rs, err)

/-- Run the processor over the filtered transaction traces of a block. -/
def runTraces : List TransactionTrace → List JRecord × Option ProcError
  | [] => ([], none)
  | tt :: rest =>
    let (rs, err) := runActions tt.block_num tt.action_traces
    match err with
    | some e => (rs, some e)
    | none =>
      let (rs2, e2) := runTraces rest
      (rs ++ rs2, e2)

/-- The `eos` per-chain block processor: the records it yields for a block,
in order, together with the uncaught exception that aborted it, if any. -/
def eos_block_processor (block : Block) : List JRecord × Option ProcError :=
  runTraces block.filtered_transaction_traces

/-- The `wax` per-chain block processor delegates to the `eos` one. -/
def wax_block_processor (block : Block) : List JRecord × Option ProcError :=
  eos_block_processor block

/-- The `kylin` per-chain block processor delegates to the `eos` one. -/
def kylin_block_processor (block : Block) : List JRecord × Option ProcError :=
  eos_block_processor block

/-- The `jungle4` per-chain block processor delegates to the `eos` one. -/
def jungle4_block_processor (block : Block) : List JRecord × Option ProcError :=
  eos_block_processor block

/-- Whether processing an action trace raises an uncaught exception. -/
def isAbort : Option (Except ProcError JRecord) → Bool
  | some (.error _) => true
  | _ => false

/-- The records of all successfully built actions of a block, in block
order; actions that are unmatched or whose payload fails to parse
contribute nothing. -/
def goodRecords (b : Block) : List JRecord :=
  b.filtered_transaction_traces.flatMap fun tt =>
    tt.action_traces.filterMap fun a =>
      match processAction tt.block_num a with
      | some (.ok r) => some r
      | _ => none

/-! Model of `main` in `pyfirehose/__main__.py` as an outcome plus an
ordered trace of externally visible effects.  Logging, argument parsing and
dynamic module import are external collaborators and are not traced. -/

/-- Externally visible effects of a run, in order. -/
inductive Effect where
  | openConnection
  | makedirs (dir : String)
  | openOut (file : String)
  | writeLine (line : String)
  | closeOut
deriving DecidableEq, Repr

/-- Whether an effect writes a record line to the output handle. -/
def isWriteEffect : Effect → Bool
  | .writeLine _ => true
  | _ => false

/-- Terminal outcome of a run of `main`. -/
inductive MainOutcome where
  | authFailure
  | invalidRange
  | incompatibleProcessor
  | processorFailed (e : ProcError)
  | success (reported : Nat)
deriving DecidableEq, Repr

/-- The command-line arguments consumed by `main` (fields the model needs). -/
structure Args where
  start : Nat
  end_ : Nat
  chain : String
  out_file : String
  disable_signature_check : Bool
deriving DecidableEq, Repr

/-- Environment of one run: the fetched JWT, the parsed arguments, the
inspected signature of the loaded block processor, the blocks the extractor
streams, and the semantics of the loaded processor. -/
structure MainEnv where
  jwt : String
  args : Args
  sig : ProcessorSignature
  streamed_blocks : List Block
  processor : Block → List JRecord × Option ProcError

/-- Model of `os.path.dirname` (posixpath): the prefix up to and including
the last slash; if that prefix is non-empty and not all slashes, trailing
slashes are stripped. -/
def os_path_dirname (p : String) : String :=
  let cs := p.data
  let base := (cs.reverse.takeWhile (fun c => c ≠ '/')).reverse
  let head := cs.take (cs.length - base.length)
  if head ≠ [] ∧ head.any (fun c => c ≠ '/') then
    String.mk ((head.reverse.dropWhile (fun c => c = '/')).reverse)
  else String.mk head

/-- The default `out_file` argument template. -/
def OUT_FILE_TEMPLATE : String :=
  "jsonl/\x7bchain\x7d_\x7bstart\x7d_to_\x7bend\x7d.jsonl"

/-- Output path computation of `main`: the derived
`jsonl/chain_start_to_end.jsonl` path unless the argument overrides the
template. -/
def out_file_of (args : Args) : String :=
  if args.out_file ≠ OUT_FILE_TEMPLATE then args.out_file
  else "jsonl/" ++ args.chain ++ "_" ++ toString args.start ++ "_to_"
       ++ toString args.end_ ++ ".jsonl"

/-- The write loop inside the `with` block: dump each entry and write it as
one line, stopping at the first serialization failure. -/
def writeEntries (dump : JRecord → Except String String) :
    List JRecord → Except String Unit × List Effect
  | [] => (.ok (), [])
  | r :: rest =>
    match dump r with
    | .error e => (.error e, [])
    | .ok line =>
      let (res, tr) := writeEntries dump rest
      (res, .writeLine line :: tr)

/-- The sink of `main`: `os.makedirs` on the output's directory, then a
scoped `with open(...)` whose handle is closed on every exit path, success
or failure, with the entries written inside. -/
def sink_write (dump : JRecord → Except String String) (rs : List JRecord)
    (out_file : String) : Except String Unit × List Effect :=
  let (res, tr) := writeEntries dump rs
  (res, .makedirs (os_path_dirname out_file) :: .openOut out_file
        :: (tr ++ [.closeOut]))

/-- Modelled from the spec: `block_extractors.common.process_blocks` is not
under `src/`.  Per the spec's Processor Dispatch contract, it invokes the
chain-specific transform per block, flattening its yielded records and
preserving block order; an uncaught per-record exception propagates and
aborts the run. -/
def process_blocks (blocks : List Block)
    (processor : Block → List JRecord × Option ProcError) :
    Except ProcError (List JRecord) :=
  match blocks with
  | [] => .ok []
  | b :: rest =>
    let (rs, err) := processor b
    match err with
    | some e => .error e
    | none =>
      match process_blocks rest processor with
      | .ok more => .ok (rs ++ more)
      | .error e => .error e

/-- Model of `main`: JWT check, range check, signature check, extraction
(the streaming connection), and the sink, in source order.  The reported
count of a successful run is `len(data)`. -/
def main (env : MainEnv) : MainOutcome × List Effect :=
  if env.jwt = "" then (.authFailure, [])
  else if env.args.end_ < env.args.start then (.invalidRange, [])
  else if env.args.disable_signature_check = false
          ∧ checkSignature env.sig = .incompatible then
    (.incompatibleProcessor, [])
  else
    match process_blocks env.streamed_blocks env.processor with
    | .error e => (.processorFailed e, [.openConnection])
    | .ok data =>
      let s := sink_write (fun r => .ok (json_dump r)) data (out_file_of env.args)
      (.success data.length, .openConnection :: s.2)

/-! Concrete instances used to instantiate the theorems below. -/

/-- A matched action trace with a well-formed transfer payload. -/
def actGood : ActionTrace where
  receiver := "alice"
  transaction_id := "tx1"
  filtering_matched := true
  block_time_seconds := 0
  action :=
    { account := "eosio.token"
      name := "transfer"
      json_data := "\x7b\"quantity\": \"1.0 EOS\", \"from\": \"a\", \"to\": \"b\", \"memo\": \"m\"\x7d" }

/-- A matched action trace whose embedded payload fails to parse. -/
def actBad : ActionTrace where
  receiver := "alice"
  transaction_id := "tx2"
  filtering_matched := true
  block_time_seconds := 0
  action := { account := "eosio.token", name := "transfer", json_data := "not json" }

/-- A block containing one bad-payload action followed by one good action. -/
def blkW : Block where
  filtered_transaction_traces := [{ block_num := 7, action_traces := [actBad, actGood] }]

/-- A compatible single-`Block`-parameter generator signature. -/
def sigPass : ProcessorSignature where
  return_annotation := some .dict
  parameters := [some .block]
  is_generator := true

/-- A fully annotated two-parameter generator signature whose first
parameter is `Block`-typed and whose return annotation is `dict`. -/
def sigTwoParams : ProcessorSignature where
  return_annotation := some .dict
  parameters := [some .block, some .other]
  is_generator := true

/-- A fully annotated generator signature with no `Block`-typed parameter. -/
def sigNoBlock : ProcessorSignature where
  return_annotation := some .dict
  parameters := [some .other]
  is_generator := true

/-- Default arguments: range 0..0 on chain eos with the template output path. -/
def argsW : Args where
  start := 0
  end_ := 0
  chain := "eos"
  out_file := OUT_FILE_TEMPLATE
  disable_signature_check := false

/-- Arguments with an inverted range (start 5, end 3). -/
def argsRange : Args where
  start := 5
  end_ := 3
  chain := "eos"
  out_file := OUT_FILE_TEMPLATE
  disable_signature_check := false

/-- Arguments with the signature check disabled. -/
def argsNoCheck : Args where
  start := 0
  end_ := 0
  chain := "eos"
  out_file := OUT_FILE_TEMPLATE
  disable_signature_check := true

/-- An environment whose JWT fetch failed (empty token). -/
def envAuth : MainEnv :=
  { jwt := "", args := argsW, sig := sigPass, streamed_blocks := [],
    processor := eos_block_processor }

/-- An environment with a valid token and an inverted range. -/
def envRange : MainEnv :=
  { jwt := "token", args := argsRange, sig := sigPass, streamed_blocks := [],
    processor := eos_block_processor }

/-- An environment supplying the two-parameter processor signature. -/
def envTwoParams : MainEnv :=
  { jwt := "token", args := argsW, sig := sigTwoParams, streamed_blocks := [],
    processor := eos_block_processor }

/-- An environment supplying a signature with no `Block` parameter. -/
def envNoBlock : MainEnv :=
  { jwt := "token", args := argsW, sig := sigNoBlock, streamed_blocks := [],
    processor := eos_block_processor }

/-- An environment that streams one block and writes its one record. -/
def envWritten : MainEnv :=
  { jwt := "token", args := argsNoCheck, sig := sigPass, streamed_blocks := [blkW],
    processor := eos_block_processor }

/-! Helper lemmas about digits and escaping. -/

lemma isDigitChar_digitChar (n : Nat) (h : n < 10) :
    isDigitChar (digitChar n) = true := by
  interval_cases n <;> decide

lemma digitChar_toNat (n : Nat) (h : n < 10) : (digitChar n).toNat = 48 + n := by
  interval_cases n <;> decide

lemma hexVal_hexDigitChar (n : Nat) (h : n < 16) :
    hexVal (hexDigitChar n) = some n := by
  interval_cases n <;> decide

lemma digitChar_ne_newline (n : Nat) : digitChar n ≠ '\n' := by
  unfold digitChar; split_ifs <;> decide

lemma hexDigitChar_ne_newline (n : Nat) : hexDigitChar n ≠ '\n' := by
  unfold hexDigitChar; split_ifs <;> first | exact digitChar_ne_newline n | decide

lemma natToCharsAux_ne_nil : ∀ fuel n, n < fuel → natToCharsAux fuel n ≠ [] := by
  intro fuel
  induction fuel with
  | zero => intro n h; omega
  | succ f ih =>
    intro n _
    rw [natToCharsAux]
    split
    · simp
    · intro hc
      have := congrArg List.length hc
      simp at this

lemma natToChars_ne_nil (n : Nat) : natToChars n ≠ [] :=
  natToCharsAux_ne_nil (n + 1) n (Nat.lt_succ_self n)

lemma natToCharsAux_digits :
    ∀ fuel n, n < fuel → ∀ c ∈ natToCharsAux fuel n, isDigitChar c = true := by
  intro fuel
  induction fuel with
  | zero => intro n h; omega
  | succ f ih =>
    intro n hn
    rw [natToCharsAux]
    split
    · next h =>
      intro c hc
      simp only [List.mem_singleton] at hc
      exact hc ▸ isDigitChar_digitChar n h
    · next h =>
      intro c hc
      rcases List.mem_append.1 hc with h1 | h1
      · exact ih (n / 10) (by omega) c h1
      · simp only [List.mem_singleton] at h1
        exact h1 ▸ isDigitChar_digitChar (n % 10) (Nat.mod_lt _ (by omega))

lemma natToChars_digits (n : Nat) : ∀ c ∈ natToChars n, isDigitChar c = true :=
  natToCharsAux_digits (n + 1) n (Nat.lt_succ_self n)

lemma isDigitChar_ne_quote {c : Char} (h : isDigitChar c = true) : c ≠ '"' := by
  rintro rfl; simp [isDigitChar] at h

lemma isDigitChar_ne_minus {c : Char} (h : isDigitChar c = true) : c ≠ '-' := by
  rintro rfl; simp [isDigitChar] at h

lemma isDigitChar_ne_newline {c : Char} (h : isDigitChar c = true) : c ≠ '\n' := by
  rintro rfl; simp [isDigitChar] at h

lemma digitsVal_append_digit (ds : List Char) (c : Char) :
    digitsVal (ds ++ [c]) = digitsVal ds * 10 + (c.toNat - 48) := by
  simp [digitsVal, List.foldl_append]

lemma digitsVal_natToCharsAux :
    ∀ fuel n, n < fuel → digitsVal (natToCharsAux fuel n) = n := by
  intro fuel
  induction fuel with
  | zero => intro n h; omega
  | succ f ih =>
    intro n hn
    rw [natToCharsAux]
    split
    · next h =>
      simp [digitsVal, digitChar_toNat n h]
    · next h =>
      rw [digitsVal_append_digit, ih (n / 10) (by omega),
          digitChar_toNat (n % 10) (Nat.mod_lt _ (by omega))]
      omega

lemma digitsVal_natToChars (n : Nat) : digitsVal (natToChars n) = n :=
  digitsVal_natToCharsAux (n + 1) n (Nat.lt_succ_self n)

lemma takeDigits_append (ds rest : List Char)
    (hd : ∀ c ∈ ds, isDigitChar c = true) (hr : headIsDigit rest = false) :
    takeDigits (ds ++ rest) = (ds, rest) := by
  induction ds with
  | nil =>
    cases rest with
    | nil => rfl
    | cons c cs =>
      simp only [headIsDigit] at hr
      simp [takeDigits, hr]
  | cons c cs ih =>
    have hc := hd c (List.mem_cons_self c cs)
    simp [takeDigits, hc, ih (fun d hdm => hd d (List.mem_cons_of_mem c hdm))]

lemma parseJString_escape (cs rest : List Char) :
    parseJString (escapeChars cs ++ '"' :: rest) = some (cs, rest) := by
  induction cs with
  | nil => rw [escapeChars, List.flatMap_nil, List.nil_append, parseJString.eq_def]; simp
  | cons c cs ih =>
    have hexp : escapeChars (c :: cs) = escapeChar c ++ escapeChars cs := by
      simp [escapeChars]
    rw [hexp, List.append_assoc]
    unfold escapeChar
    split_ifs with h1 h2 h3 h4 h5 h6
    · subst h1; rw [parseJString.eq_def]; simp [unescapeCode, ih]
    · subst h2; rw [parseJString.eq_def]; simp [unescapeCode, ih]
    · subst h3; rw [parseJString.eq_def]; simp [unescapeCode, ih]
    · subst h4; rw [parseJString.eq_def]; simp [unescapeCode, ih]
    · subst h5; rw [parseJString.eq_def]; simp [unescapeCode, ih]
    · have e1 : hexVal '0' = some 0 := by decide
      have e2 := hexVal_hexDigitChar (c.toNat / 16) (by omega)
      have e3 := hexVal_hexDigitChar (c.toNat % 16) (by omega)
      have e5 : c.toNat / 16 * 16 + c.toNat % 16 = c.toNat := by omega
      rw [parseJString.eq_def]
      simp [e1, e2, e3, e5, ih, Char.ofNat_toNat]
    · rw [parseJString.eq_def]; simp [h1, h2, h6, ih]

lemma parseValue_dump (v : JValue) (rest : List Char) (hr : headIsDigit rest = false) :
    parseValue (dumpValue v ++ rest) = some (v, rest) := by
  cases v with
  | str s =>
    obtain ⟨l⟩ := s
    have : dumpValue (.str (String.mk l)) ++ rest
        = '"' :: (escapeChars l ++ '"' :: rest) := by
      simp [dumpValue, dumpString]
    rw [this, parseValue.eq_def]
    simp [parseJString_escape l rest]
  | int n =>
    simp only [dumpValue, intToChars]
    split_ifs with hneg
    · have htd := takeDigits_append (natToChars (-n).toNat) rest (natToChars_digits _) hr
      rw [List.cons_append, parseValue.eq_def]
      simp [htd, natToChars_ne_nil, digitsVal_natToChars]
      omega
    · obtain ⟨d, t, hdt⟩ : ∃ d t, natToChars n.toNat = d :: t := by
        cases h : natToChars n.toNat with
        | nil => exact absurd h (natToChars_ne_nil _)
        | cons d t => exact ⟨d, t, rfl⟩
      have hdig : ∀ c ∈ d :: t, isDigitChar c = true := by
        rw [← hdt]; exact natToChars_digits n.toNat
      have hd : isDigitChar d = true := hdig d (List.mem_cons_self d t)
      have htd : takeDigits (d :: (t ++ rest)) = (d :: t, rest) := by
        rw [show d :: (t ++ rest) = (d :: t) ++ rest from rfl]
        exact takeDigits_append _ _ hdig hr
      have hval : digitsVal (d :: t) = n.toNat := by
        rw [← hdt, digitsVal_natToChars]
      rw [hdt, List.cons_append, parseValue.eq_def]
      simp [isDigitChar_ne_quote hd, isDigitChar_ne_minus hd, htd, hval]
      omega

lemma parsePair_dump (kv : String × JValue) (rest : List Char)
    (hr : headIsDigit rest = false) :
    parsePair (dumpPair kv ++ rest) = some (kv, rest) := by
  obtain ⟨k, v⟩ := kv
  obtain ⟨l⟩ := k
  have : dumpPair (String.mk l, v) ++ rest
      = '"' :: (escapeChars l ++ '"' :: (':' :: ' ' :: (dumpValue v ++ rest))) := by
    simp [dumpPair, dumpString]
  rw [this, parsePair]
  simp [parseJString_escape l, parseValue_dump v rest hr]

lemma dumpPairs_cons_cons (kv kv' : String × JValue) (r : JRecord) :
    dumpPairs (kv :: kv' :: r) = dumpPair kv ++ (',' :: ' ' :: dumpPairs (kv' :: r)) :=
  rfl

lemma dumpPairs_length_ge (r : JRecord) : r.length ≤ (dumpPairs r).length := by
  induction r with
  | nil => simp [dumpPairs]
  | cons kv r ih =>
    cases r with
    | nil => simp [dumpPairs, dumpPair, dumpString]
    | cons kv' r' =>
      rw [dumpPairs_cons_cons]
      have : 1 ≤ (dumpPair kv).length := by simp [dumpPair, dumpString]
      simp only [List.length_cons, List.length_append] at *
      omega

lemma parsePairsAux_dump (r : JRecord) (hr : r ≠ []) (rest : List Char) :
    ∀ fuel : Nat, r.length ≤ fuel →
      parsePairsAux fuel (dumpPairs r ++ '\x7d' :: rest) = some (r, rest) := by
  induction r with
  | nil => exact absurd rfl hr
  | cons kv r ih =>
    intro fuel hfuel
    cases fuel with
    | zero => simp at hfuel
    | succ f =>
      cases r with
      | nil =>
        show parsePairsAux (f + 1) (dumpPair kv ++ '\x7d' :: rest) = some ([kv], rest)
        rw [parsePairsAux, parsePair_dump kv ('\x7d' :: rest) rfl]
        rfl
      | cons kv' r' =>
        rw [dumpPairs_cons_cons, List.append_assoc, parsePairsAux]
        rw [show (',' :: ' ' :: dumpPairs (kv' :: r')) ++ '\x7d' :: rest
              = ',' :: ' ' :: (dumpPairs (kv' :: r') ++ '\x7d' :: rest) from rfl]
        rw [parsePair_dump kv (',' :: ' ' :: (dumpPairs (kv' :: r') ++ '\x7d' :: rest)) rfl]
        simp only [List.length_cons] at hfuel
        have hih := ih (by simp) f (by simp only [List.length_cons]; omega)
        simp [hih]

lemma parseRecordChars_dump (r : JRecord) (rest : List Char) :
    parseRecordChars (dumpRecordChars r ++ rest) = some (r, rest) := by
  cases r with
  | nil =>
    show parseRecordChars ('\x7b' :: ('\x7d' :: rest)) = some ([], rest)
    rw [parseRecordChars]
    simp
  | cons kv r' =>
    obtain ⟨t, ht⟩ : ∃ t, dumpPairs (kv :: r') = '"' :: t := by
      cases r' with
      | nil =>
        refine ⟨escapeChars kv.1.data ++ ['"'] ++ (':' :: ' ' :: dumpValue kv.2), ?_⟩
        simp [dumpPairs, dumpPair, dumpString]
      | cons kv' r'' =>
        refine ⟨escapeChars kv.1.data ++ ['"'] ++ (':' :: ' ' :: dumpValue kv.2)
          ++ (',' :: ' ' :: dumpPairs (kv' :: r'')), ?_⟩
        simp [dumpPairs, dumpPair, dumpString]
    have hshape : dumpRecordChars (kv :: r') ++ rest
        = '\x7b' :: ('"' :: (t ++ '\x7d' :: rest)) := by
      simp [dumpRecordChars, ht]
    rw [hshape, parseRecordChars]
    simp only [if_pos rfl, if_neg (by decide : ¬('"' : Char) = '\x7d')]
    rw [show '"' :: (t ++ '\x7d' :: rest) = dumpPairs (kv :: r') ++ '\x7d' :: rest by
          simp [ht]]
    refine parsePairsAux_dump (kv :: r') (by simp) rest _ ?_
    have h1 := dumpPairs_length_ge (kv :: r')
    have h2 : (dumpPairs (kv :: r')).length = t.length + 1 := by rw [ht]; simp
    simp only [List.length_append, List.length_cons] at h1 h2 ⊢
    omega

lemma dumpRecordChars_length_ge (r : JRecord) : 2 ≤ (dumpRecordChars r).length := by
  simp [dumpRecordChars]

lemma parseNDJSONAux_dump (rs : List JRecord) :
    ∀ fuel : Nat, (sinkOutputChars rs).length ≤ fuel →
      parseNDJSONAux fuel (sinkOutputChars rs) = some rs := by
  induction rs with
  | nil =>
    intro fuel _
    cases fuel <;> simp [sinkOutputChars, parseNDJSONAux]
  | cons r rs ih =>
    intro fuel hfuel
    have hexp : sinkOutputChars (r :: rs)
        = dumpRecordChars r ++ '\n' :: sinkOutputChars rs := by
      simp [sinkOutputChars]
    rw [hexp] at hfuel ⊢
    have hlen := dumpRecordChars_length_ge r
    have hne : dumpRecordChars r ++ '\n' :: sinkOutputChars rs ≠ [] := by
      intro h
      have := congrArg List.length h
      simp at this
    cases fuel with
    | zero =>
      exfalso
      simp only [List.length_append, List.length_cons] at hfuel
      omega
    | succ f =>
      obtain ⟨c, cs, hcs⟩ : ∃ c cs, dumpRecordChars r ++ '\n' :: sinkOutputChars rs
          = c :: cs := by
        cases h : dumpRecordChars r ++ '\n' :: sinkOutputChars rs with
        | nil => exact absurd h hne
        | cons c cs => exact ⟨c, cs, rfl⟩
      rw [hcs, parseNDJSONAux, ← hcs, parseRecordChars_dump r ('\n' :: sinkOutputChars rs)]
      · have hih := ih f (by simp only [List.length_append, List.length_cons] at hfuel ⊢; omega)
        simp [hih]
      · simp

/-! Newline-freeness of serialized records. -/

lemma escapeChar_no_newline (c : Char) : '\n' ∉ escapeChar c := by
  unfold escapeChar
  split_ifs with h1 h2 h3 h4 h5 h6
  · decide
  · decide
  · decide
  · decide
  · decide
  · intro hm
    simp only [List.mem_cons, List.not_mem_nil, or_false] at hm
    rcases hm with h | h | h | h | h | h <;>
      first
        | exact absurd h.symm (by decide)
        | exact absurd h.symm (hexDigitChar_ne_newline _)
  · intro hm
    simp only [List.mem_singleton] at hm
    exact h3 hm.symm

lemma escapeChars_no_newline (cs : List Char) : '\n' ∉ escapeChars cs := by
  intro hm
  simp only [escapeChars, List.mem_flatMap] at hm
  obtain ⟨c, _, hc⟩ := hm
  exact escapeChar_no_newline c hc

lemma dumpString_no_newline (s : String) : '\n' ∉ dumpString s := by
  intro hm
  simp only [dumpString, List.mem_cons, List.mem_append, List.mem_singleton] at hm
  rcases hm with h | h | h
  · exact absurd h (by decide)
  · exact escapeChars_no_newline _ h
  · exact absurd h (by decide)

lemma natToChars_no_newline (n : Nat) : '\n' ∉ natToChars n := by
  intro hm
  exact absurd (natToChars_digits n _ hm) (by simp [isDigitChar])

lemma dumpValue_no_newline (v : JValue) : '\n' ∉ dumpValue v := by
  cases v with
  | str s => exact dumpString_no_newline s
  | int n =>
    simp only [dumpValue, intToChars]
    split_ifs
    · intro hm
      simp only [List.mem_cons] at hm
      rcases hm with h | h
      · exact absurd h (by decide)
      · exact natToChars_no_newline _ h
    · exact natToChars_no_newline _

lemma dumpPair_no_newline (kv : String × JValue) : '\n' ∉ dumpPair kv := by
  intro hm
  simp only [dumpPair, List.mem_append, List.mem_cons] at hm
  rcases hm with h | h | h | h
  · exact dumpString_no_newline _ h
  · exact absurd h (by decide)
  · exact absurd h (by decide)
  · exact dumpValue_no_newline _ h

lemma dumpPairs_no_newline (r : JRecord) : '\n' ∉ dumpPairs r := by
  induction r with
  | nil => simp [dumpPairs]
  | cons kv r ih =>
    cases r with
    | nil => exact dumpPair_no_newline kv
    | cons kv' r' =>
      rw [dumpPairs_cons_cons]
      intro hm
      simp only [List.mem_append, List.mem_cons] at hm
      rcases hm with h | h | h | h
      · exact dumpPair_no_newline kv h
      · exact absurd h (by decide)
      · exact absurd h (by decide)
      · exact ih (by simpa using h)

lemma dumpRecordChars_no_newline (r : JRecord) : '\n' ∉ dumpRecordChars r := by
  intro hm
  simp only [dumpRecordChars, List.mem_cons, List.mem_append, List.mem_singleton] at hm
  rcases hm with h | h | h
  · exact absurd h (by decide)
  · exact dumpPairs_no_newline r h
  · exact absurd h (by decide)

lemma splitLines_append_line (xs rest : List Char) (h : '\n' ∉ xs) :
    splitLines (xs ++ '\n' :: rest) = xs :: splitLines rest := by
  induction xs with
  | nil => simp [splitLines]
  | cons c cs ih =>
    have hc : ¬c = '\n' := fun e => h (by simp [e])
    rw [List.cons_append, splitLines, if_neg hc,
        ih (fun m => h (List.mem_cons_of_mem c m))]

/-! Helper lemmas about the sink and the processor. -/

lemma writeEntries_ok_dump (f : JRecord → String) (rs : List JRecord) :
    writeEntries (fun r => .ok (f r)) rs
      = (.ok (), rs.map (fun r => .writeLine (f r))) := by
  induction rs with
  | nil => rfl
  | cons r rs ih => simp [writeEntries, ih]

lemma writeEntries_all_writes (dump : JRecord → Except String String)
    (rs : List JRecord) : ∀ e ∈ (writeEntries dump rs).2, isWriteEffect e = true := by
  induction rs with
  | nil => simp [writeEntries]
  | cons r rest ih =>
    cases hd : dump r with
    | error e => simp [writeEntries, hd]
    | ok line =>
      intro e hm
      simp only [writeEntries, hd, List.mem_cons] at hm
      rcases hm with h | h
      · subst h; rfl
      · exact ih e h

lemma writes_filter_length (ds : List JRecord) :
    ((ds.map (fun r => Effect.writeLine (json_dump r))).filter isWriteEffect).length
      = ds.length := by
  induction ds with
  | nil => rfl
  | cons d ds ih => simp [isWriteEffect, ih]

lemma runActions_no_abort (bn : Nat) (acts : List ActionTrace)
    (h : ∀ a ∈ acts, isAbort (processAction bn a) = false) :
    runActions bn acts
      = (acts.filterMap (fun a =>
          match processAction bn a with
          | some (.ok r) => some r
          | _ => none), none) := by
  induction acts with
  | nil => rfl
  | cons a rest ih =>
    have ha := h a (List.mem_cons_self a rest)
    have hrest := ih (fun a' m => h a' (List.mem_cons_of_mem _ m))
    cases hpa : processAction bn a with
    | none => simp [runActions, hpa, hrest, List.filterMap_cons]
    | some res =>
      cases res with
      | error e => rw [hpa] at ha; simp [isAbort] at ha
      | ok r => simp [runActions, hpa, hrest, List.filterMap_cons]

lemma runTraces_no_abort (tts : List TransactionTrace)
    (h : ∀ tt ∈ tts, ∀ a ∈ tt.action_traces,
          isAbort (processAction tt.block_num a) = false) :
    runTraces tts
      = (tts.flatMap (fun tt => tt.action_traces.filterMap (fun a =>
          match processAction tt.block_num a with
          | some (.ok r) => some r
          | _ => none)), none) := by
  induction tts with
  | nil => rfl
  | cons tt rest ih =>
    rw [runTraces,
        runActions_no_abort tt.block_num tt.action_traces
          (h tt (List.mem_cons_self tt rest))]
    simp [ih (fun tt' m a am => h tt' (List.mem_cons_of_mem _ m) a am)]

/-! The claims. -/

/-- C9: for every block, the wax, kylin and jungle4 per-chain block
processors yield exactly the same record sequence (and the same abort
behavior) as the eos block processor. -/
theorem chain_processors_agree (b : Block) :
    wax_block_processor b = eos_block_processor b ∧
    kylin_block_processor b = eos_block_processor b ∧
    jungle4_block_processor b = eos_block_processor b :=
  ⟨rfl, rfl, rfl⟩

/-- C10: when the fetched JWT is the empty string, `main` returns exit
status 1 (the auth-failure outcome) immediately, with an empty effect
trace: no streaming connection is opened and no output file is written. -/
theorem empty_jwt_aborts (env : MainEnv) (h : env.jwt = "") :
    main env = (.authFailure, []) := by
  simp [main, h]

/-- C10 witness: the auth-failure outcome at a concrete environment. -/
theorem empty_jwt_aborts_witness : main envAuth = (.authFailure, []) :=
  empty_jwt_aborts envAuth rfl

/-- C2: with a usable token, a request whose period start exceeds its
period end is rejected with the invalid-range outcome and an empty effect
trace (no connection, no extraction, no output); a request with
start ≤ end passes this validation. -/
theorem invalid_range_rejected (env : MainEnv) (hjwt : env.jwt ≠ "") :
    (env.args.end_ < env.args.start → main env = (.invalidRange, [])) ∧
    (env.args.start ≤ env.args.end_ → (main env).1 ≠ .invalidRange) := by
  constructor
  · intro h
    simp [main, hjwt, h]
  · intro h
    unfold main
    rw [if_neg hjwt, if_neg (by omega : ¬env.args.end_ < env.args.start)]
    split_ifs with h3
    · simp
    · split <;> simp

/-- C2 witness: the invalid-range rejection at a concrete environment with
start 5 and end 3. -/
theorem invalid_range_rejected_witness : main envRange = (.invalidRange, []) :=
  (invalid_range_rejected envRange (by decide)).1 (by decide)

/-- C1 counterexample: a fully annotated two-parameter generator processor
(parameters annotated `Block` and another type, return annotated `dict`)
does not take a single `Block`-typed parameter, yet the signature check
passes and the run proceeds to extraction and output writing instead of
failing fast. -/
theorem two_param_processor_not_rejected :
    sigTwoParams.parameters.length = 2 ∧
    checkSignature sigTwoParams = .passed ∧
    main envTwoParams
      = (.success 0, [.openConnection, .makedirs "jsonl",
                      .openOut "jsonl/eos_0_to_0.jsonl", .closeOut]) :=
  ⟨rfl, by decide, by rfl⟩

/-- C1 amended: with the check enabled, a run that passes auth and range
validation fails fast with the incompatible-processor outcome — before any
extraction or output effect — exactly when the processor signature is fully
annotated and `Block` is missing from its parameter annotations, or its
return annotation is not `dict`, or it is not a generator function; a
signature with missing annotations only warns and proceeds, and extra
parameters beyond one `Block`-typed parameter are accepted. -/
theorem signature_check_fail_fast (env : MainEnv)
    (hjwt : env.jwt ≠ "") (hrange : env.args.start ≤ env.args.end_)
    (hcheck : env.args.disable_signature_check = false) :
    (checkSignature env.sig = .incompatible ↔
      (env.sig.return_annotation ≠ none ∧
       (∀ t ∈ env.sig.parameters, t ≠ none) ∧
       ((some PyType.block) ∉ env.sig.parameters ∨
        env.sig.return_annotation ≠ some PyType.dict ∨
        env.sig.is_generator = false))) ∧
    (checkSignature env.sig = .incompatible →
      main env = (.incompatibleProcessor, [])) := by
  constructor
  · unfold checkSignature parameters_annotations
    split_ifs with h1 h2
    · constructor
      · intro hw; simp at hw
      · rintro ⟨hr, hp, _⟩
        rcases h1 with h | h | h
        · exact hr h
        · exact h.2 h.1
        · obtain ⟨t, ht, hnone⟩ := h
          exact hp t ht hnone
    · push_neg at h1
      constructor
      · intro _
        exact ⟨h1.1, h1.2.2, h2⟩
      · intro _
        rfl
    · push_neg at h2
      constructor
      · intro hp; simp at hp
      · rintro ⟨_, _, h3⟩
        rcases h3 with h | h | h
        · exact h h2.1
        · exact h h2.2.1
        · exact h2.2.2 h
  · intro hinc
    unfold main
    rw [if_neg hjwt, if_neg (by omega : ¬env.args.end_ < env.args.start),
        if_pos ⟨hcheck, hinc⟩]

/-- C1 witness: the fail-fast outcome at a concrete environment whose
processor signature has no Block-typed parameter. -/
theorem signature_check_fail_fast_witness :
    checkSignature sigNoBlock = .incompatible ∧
    main envNoBlock = (.incompatibleProcessor, []) :=
  ⟨by decide,
   (signature_check_fail_fast envNoBlock (by decide) (by decide) rfl).2 (by decide)⟩

/-- C3: if no action of a block raises an uncaught exception while its
record is built, the eos block processor completes the whole block without
aborting and yields exactly the records of the successfully built matched
actions, in order; moreover a matched action whose embedded JSON payload
fails to parse is always caught and skipped (it contributes nothing and
raises nothing), so one bad action never aborts the block or the run. -/
theorem bad_payload_skipped (b : Block)
    (h : ∀ tt ∈ b.filtered_transaction_traces, ∀ a ∈ tt.action_traces,
           isAbort (processAction tt.block_num a) = false) :
    eos_block_processor b = (goodRecords b, none) ∧
    (∀ (bn : Nat) (a : ActionTrace), a.filtering_matched = true →
       jsonLoads a.action.json_data = none → processAction bn a = none) := by
  constructor
  · exact runTraces_no_abort _ h
  · intro bn a hmatch hparse
    simp [processAction, hmatch, hparse]

/-- C3 witness: a concrete block with a bad-payload action followed by a
good action is fully processed without aborting. -/
theorem bad_payload_skipped_witness :
    eos_block_processor blkW = (goodRecords blkW, none) ∧
    (∀ (bn : Nat) (a : ActionTrace), a.filtering_matched = true →
       jsonLoads a.action.json_data = none → processAction bn a = none) :=
  bad_payload_skipped blkW (by decide)

/-- C4: round-trip — writing any finite sequence of records through the
sink and parsing the output back as newline-delimited JSON yields exactly
the same records, field for field, in the same order. -/
theorem ndjson_roundtrip (rs : List JRecord) :
    parseNDJSON (sink_output rs) = some rs :=
  parseNDJSONAux_dump rs (sinkOutputChars rs).length le_rfl

/-- C5: the sink writes exactly one JSON object per line, in the order the
records were received: splitting the output on newlines yields exactly the
serialized records in input order (plus the empty segment after the final
newline), and each such line parses back as exactly one JSON object, the
corresponding record.  The text is written UTF-8 encoded; the model works
at the Unicode string level. -/
theorem one_object_per_line (rs : List JRecord) :
    splitLines (sink_output rs).data
      = rs.map (fun r => (json_dump r).data) ++ [[]] ∧
    ∀ r : JRecord, parseLine (json_dump r) = some r := by
  constructor
  · show splitLines (sinkOutputChars rs) = _
    induction rs with
    | nil => simp [sinkOutputChars, splitLines]
    | cons r rest ih =>
      have hexp : sinkOutputChars (r :: rest)
          = dumpRecordChars r ++ '\n' :: sinkOutputChars rest := by
        simp [sinkOutputChars]
      rw [hexp, splitLines_append_line _ _ (dumpRecordChars_no_newline r), ih]
      rfl
  · intro r
    have h := parseRecordChars_dump r []
    rw [List.append_nil] at h
    simp [parseLine, json_dump, h]

/-- C6: on a successful run, the count `main` reports equals the number of
record lines actually written to the output destination. -/
theorem reported_count_matches_writes (env : MainEnv) (n : Nat) (tr : List Effect)
    (h : main env = (.success n, tr)) :
    n = (tr.filter isWriteEffect).length := by
  unfold main at h
  split_ifs at h with h1 h2 h3
  · simp at h
  · simp at h
  · simp at h
  · cases hpb : process_blocks env.streamed_blocks env.processor with
    | error e => rw [hpb] at h; simp at h
    | ok data =>
      rw [hpb] at h
      simp only [Prod.mk.injEq, MainOutcome.success.injEq] at h
      obtain ⟨hn, htr⟩ := h
      subst hn
      rw [← htr]
      simp [sink_write, writeEntries_ok_dump, isWriteEffect, writes_filter_length]

/-- C6 witness: the reported count of a concrete successful run equals its
written line count (one record from one streamed block). -/
theorem reported_count_matches_writes_witness :
    (1 : Nat) = (((main envWritten).2).filter isWriteEffect).length :=
  reported_count_matches_writes envWritten 1 (main envWritten).2 (by rfl)

/-- C7: for every record sequence, destination and per-record dump (which
may fail), the sink's effect trace first ensures the destination directory
exists, then acquires the output handle, then performs only write effects,
and ends by closing the handle — on every exit path, success or failure. -/
theorem sink_scoped (dump : JRecord → Except String String)
    (rs : List JRecord) (f : String) :
    ∃ ws, (sink_write dump rs f).2
        = .makedirs (os_path_dirname f) :: .openOut f :: (ws ++ [.closeOut]) ∧
      ∀ e ∈ ws, isWriteEffect e = true :=
  ⟨(writeEntries dump rs).2, rfl, writeEntries_all_writes dump rs⟩

/-- C8 counterexample: the explicit compression value "none" is not
accepted: `load_config` raises `ArgumentTypeError` instead of selecting no
compression. -/
theorem compression_none_rejected :
    parse_compression (some "none") = .error .argumentTypeError := by
  rfl

/-- C8 amended: the compression choice admits exactly gzip and deflate
(case-insensitively) as explicit values; an absent compression key selects
no compression; any other explicit value — including the literal "none" —
is rejected with `ArgumentTypeError`. -/
theorem compression_choices (o : Option String) :
    (parse_compression o = .ok .noCompression ↔ o = none) ∧
    (parse_compression o = .ok .gzip ↔ ∃ s, o = some s ∧ py_lower s = "gzip") ∧
    (parse_compression o = .ok .deflate ↔ ∃ s, o = some s ∧ py_lower s = "deflate") ∧
    (parse_compression o = .error .argumentTypeError ↔
      ∃ s, o = some s ∧ py_lower s ≠ "gzip" ∧ py_lower s ≠ "deflate") := by
  cases o with
  | none => simp [parse_compression]
  | some s =>
    by_cases hg : py_lower s = "gzip"
    · simp [parse_compression, hg]
    · by_cases hd : py_lower s = "deflate"
      · simp [parse_compression, hg, hd]
      · simp [parse_compression, hg, hd]

end Pyfirehose
